import Mathlib

/-!
Verification of the Sichuan-mahjong rule engine (tiles, melds, winning-hand
decomposition, action legality, turn state machine) against its specification.
Python sources are shallowly embedded: lists model Python lists, Option models
raise-vs-return, and dict-shaped game state becomes a structure.
-/

namespace AIMJ

/-- Suit enumeration from src/utils/constants.py. -/
inductive Suit
  | WAN
  | TONG
  | TIAO
deriving DecidableEq, Repr

/-- Action types from src/utils/constants.py. -/
inductive ActionType
  | DISCARD
  | PONG
  | GANG
  | HU
  | PASS
  | LACK
deriving DecidableEq, Repr

/-- Meld types from src/utils/constants.py. -/
inductive MeldType
  | PONG
  | MING_GANG
  | AN_GANG
  | BU_GANG
deriving DecidableEq, Repr

/-- Game phases from src/utils/constants.py. -/
inductive GamePhase
  | INIT
  | LACK_SELECTION
  | PLAYING
  | ENDED
deriving DecidableEq, Repr

/-- A mahjong tile (src/core/tile.py): a suit and a rank.  Equality is
structural, matching Tile.__eq__. -/
structure Tile where
  suit : Suit
  rank : Nat
deriving DecidableEq, Repr

/-- RANK_NAMES from src/utils/constants.py: rank to Chinese numeral. -/
def RANK_NAMES : List (Nat × Char) :=
  [(1, '一'), (2, '二'), (3, '三'), (4, '四'), (5, '五'),
   (6, '六'), (7, '七'), (8, '八'), (9, '九')]

/-- SUIT_NAMES from src/utils/constants.py: suit to Chinese character. -/
def SUIT_NAMES : List (Suit × Char) :=
  [(Suit.WAN, '万'), (Suit.TONG, '筒'), (Suit.TIAO, '条')]

/-- Dictionary lookup RANK_NAMES[rank] used by Tile.__str__. -/
def rank_name (r : Nat) : Char :=
  ((RANK_NAMES.find? (fun p => decide (p.1 = r))).map Prod.snd).getD '?'

/-- Dictionary lookup SUIT_NAMES[suit] used by Tile.__str__. -/
def suit_name (s : Suit) : Char :=
  ((SUIT_NAMES.find? (fun p => decide (p.1 = s))).map Prod.snd).getD '?'

/-- Tile.__str__ (src/core/tile.py): the 2-character token, as a char list. -/
def tile_str (t : Tile) : List Char :=
  [rank_name t.rank, suit_name t.suit]

/-- The loop in Tile.from_string looking up the rank character among
RANK_NAMES items (first match). -/
def find_rank (c : Char) : Option Nat :=
  (RANK_NAMES.find? (fun p => decide (p.2 = c))).map Prod.fst

/-- The loop in Tile.from_string looking up the suit character among
SUIT_NAMES items (first match). -/
def find_suit (c : Char) : Option Suit :=
  (SUIT_NAMES.find? (fun p => decide (p.2 = c))).map Prod.fst

/-- Tile.__init__ (src/core/tile.py): validates rank in range(1, 10);
none models the raised ValueError. -/
def mkTile (s : Suit) (r : Nat) : Option Tile :=
  if 1 ≤ r ∧ r ≤ 9 then some ⟨s, r⟩ else none

/-- Tile.from_string (src/core/tile.py).  Python strings are modelled as
char lists; none models a raised ValueError. -/
def from_string (cs : List Char) : Option Tile :=
  match cs with
  | [rank_ch, suit_ch] =>
    match find_rank rank_ch with
    | none => none
    | some r =>
      match find_suit suit_ch with
      | none => none
      | some s => mkTile s r
  | _ => none

/-- A meld (src/core/meld.py): type plus tiles. -/
structure Meld where
  meld_type : MeldType
  tiles : List Tile
deriving DecidableEq, Repr

/-- The all(tile == self.tiles[0] for tile in self.tiles) check of
Meld._validate; the length guard runs first, so tiles is nonempty whenever
tiles[0] is read. -/
def all_match_first : List Tile → Bool
  | [] => true
  | h :: rest => rest.all (fun t => decide (t = h))

/-- Meld.__init__ plus Meld._validate (src/core/meld.py): none models the
raised ValueError, some the successfully constructed object. -/
def mkMeld (mt : MeldType) (tiles : List Tile) : Option Meld :=
  match mt with
  | .PONG =>
    if tiles.length = 3 then
      if all_match_first tiles then some ⟨mt, tiles⟩ else none
    else none
  | _ =>
    if tiles.length = 4 then
      if all_match_first tiles then some ⟨mt, tiles⟩ else none
    else none

/-- Meld.get_base_tile (src/core/meld.py): tiles[0]. -/
def Meld.base_tile (m : Meld) : Option Tile :=
  m.tiles.head?

/-- Spec wording: all tiles of the meld are structurally identical. -/
def AllIdentical (tiles : List Tile) : Prop :=
  ∀ a ∈ tiles, ∀ b ∈ tiles, a = b

theorem all_match_first_iff (tiles : List Tile) :
    all_match_first tiles = true ↔ AllIdentical tiles := by
  cases tiles with
  | nil => simp [all_match_first, AllIdentical]
  | cons h rest =>
    simp only [all_match_first, List.all_eq_true, decide_eq_true_eq]
    constructor
    · intro hall a ha b hb
      have key : ∀ x ∈ h :: rest, x = h := by
        intro x hx
        rcases List.mem_cons.mp hx with rfl | hx'
        · rfl
        · exact hall x hx'
      rw [key a ha, key b hb]
    · intro hid t ht
      exact hid t (List.mem_cons_of_mem _ ht) h (List.mem_cons_self _ _)

/-- Claim C6: tile notation round-trip.  For every valid tile (rank 1..9),
parsing the printed 2-character token returns the same tile; parsing fails on
every list whose length is not 2, and on every 2-character list whose first
character is not a rank name or whose second character is not a suit name. -/
theorem tile_round_trip (t : Tile) (h1 : 1 ≤ t.rank) (h2 : t.rank ≤ 9) :
    from_string (tile_str t) = some t ∧
    (∀ cs : List Char, cs.length ≠ 2 → from_string cs = none) ∧
    (∀ a b : Char, find_rank a = none ∨ find_suit b = none →
      from_string [a, b] = none) := by
  refine ⟨?_, ?_, ?_⟩
  · obtain ⟨s, r⟩ := t
    simp only at h1 h2
    cases s <;> interval_cases r <;> decide
  · intro cs hlen
    match cs with
    | [] => rfl
    | [_] => rfl
    | [_, _] => exact absurd rfl hlen
    | _ :: _ :: _ :: _ => rfl
  · intro a b hab
    rcases hab with h | h
    · simp [from_string, h]
    · cases hfr : find_rank a <;> simp [from_string, hfr, h]

/-- Witness for C6 at the concrete tile five-WAN. -/
theorem tile_round_trip_witness :
    from_string (tile_str ⟨Suit.WAN, 5⟩) = some ⟨Suit.WAN, 5⟩ :=
  (tile_round_trip ⟨Suit.WAN, 5⟩ (by decide) (by decide)).1

/-- Claim C7: meld construction succeeds exactly for a PONG of 3 identical
tiles or a kong kind (MING_GANG, AN_GANG, BU_GANG) of 4 identical tiles;
every other combination raises and produces no object. -/
theorem meld_construction_iff (mt : MeldType) (tiles : List Tile) :
    (mkMeld mt tiles).isSome = true ↔
      ((mt = .PONG ∧ tiles.length = 3 ∧ AllIdentical tiles) ∨
       ((mt = .MING_GANG ∨ mt = .AN_GANG ∨ mt = .BU_GANG) ∧
         tiles.length = 4 ∧ AllIdentical tiles)) := by
  have hiff := all_match_first_iff tiles
  cases mt <;> simp only [mkMeld] <;> split_ifs with hl hm <;> simp_all

/-- Witness for C7: a PONG of three identical one-WAN tiles constructs. -/
theorem meld_construction_iff_witness :
    (mkMeld .PONG [⟨Suit.WAN, 1⟩, ⟨Suit.WAN, 1⟩, ⟨Suit.WAN, 1⟩]).isSome = true :=
  (meld_construction_iff .PONG _).mpr
    (Or.inl ⟨rfl, rfl, (all_match_first_iff _).mp (by decide)⟩)

/-- Helper for first_dedup: seen accumulates already-emitted keys. -/
def first_dedup_go : List Tile → List Tile → List Tile
  | [], _ => []
  | x :: xs, seen =>
    if x ∈ seen then first_dedup_go xs seen
    else x :: first_dedup_go xs (x :: seen)

/-- The distinct tiles of a hand in first-occurrence order, matching Python
dict/Counter key insertion order. -/
def first_dedup (l : List Tile) : List Tile :=
  first_dedup_go l []

/-- Counter(hand).items() as used by RuleEngine._can_form_melds_and_pair:
distinct tiles in first-occurrence order, each with its multiplicity. -/
def counter_items (hand : List Tile) : List (Tile × Nat) :=
  (first_dedup hand).map (fun t => (t, hand.count t))

theorem mem_first_dedup_go (l : List Tile) :
    ∀ (seen : List Tile) (x : Tile),
      x ∈ first_dedup_go l seen ↔ x ∈ l ∧ x ∉ seen := by
  induction l with
  | nil => intro seen x; simp [first_dedup_go]
  | cons a as ih =>
    intro seen x
    by_cases ha : a ∈ seen
    · rw [first_dedup_go, if_pos ha, ih]
      constructor
      · rintro ⟨h1, h2⟩
        exact ⟨List.mem_cons_of_mem _ h1, h2⟩
      · rintro ⟨h1, h2⟩
        rcases List.mem_cons.mp h1 with rfl | h1
        · exact absurd ha h2
        · exact ⟨h1, h2⟩
    · rw [first_dedup_go, if_neg ha]
      constructor
      · intro hx
        rcases List.mem_cons.mp hx with rfl | hx
        · exact ⟨List.mem_cons_self _ _, ha⟩
        · rcases (ih _ _).mp hx with ⟨h1, h2⟩
          refine ⟨List.mem_cons_of_mem _ h1, ?_⟩
          intro hs
          exact h2 (List.mem_cons_of_mem _ hs)
      · rintro ⟨h1, h2⟩
        rcases List.mem_cons.mp h1 with rfl | h1
        · exact List.mem_cons_self _ _
        · by_cases hxa : x = a
          · subst hxa; exact List.mem_cons_self _ _
          · refine List.mem_cons_of_mem _ ((ih _ _).mpr ⟨h1, ?_⟩)
            intro hs
            rcases List.mem_cons.mp hs with h | h
            · exact hxa h
            · exact h2 h

theorem mem_first_dedup (l : List Tile) (x : Tile) :
    x ∈ first_dedup l ↔ x ∈ l := by
  rw [first_dedup, mem_first_dedup_go]
  simp

theorem nodup_first_dedup_go (l : List Tile) :
    ∀ seen : List Tile, (first_dedup_go l seen).Nodup := by
  induction l with
  | nil => intro seen; simp [first_dedup_go]
  | cons a as ih =>
    intro seen
    by_cases ha : a ∈ seen
    · rw [first_dedup_go, if_pos ha]; exact ih seen
    · rw [first_dedup_go, if_neg ha]
      refine List.nodup_cons.mpr ⟨?_, ih _⟩
      intro hmem
      exact ((mem_first_dedup_go as _ a).mp hmem).2 (List.mem_cons_self _ _)

theorem nodup_first_dedup (l : List Tile) : (first_dedup l).Nodup :=
  nodup_first_dedup_go l []

/-- The remaining-tiles list rebuilt at the base case of
RuleEngine._try_form_melds: each (tile, count) contributes count copies. -/
def rem_tiles (tcs : List (Tile × Nat)) : List Tile :=
  tcs.flatMap (fun p => List.replicate p.2 p.1)

/-- The final pair test of RuleEngine._try_form_melds:
len(remaining) == 2 and remaining[0] == remaining[1]. -/
def pair_check : List Tile → Bool
  | [a, b] => decide (a = b)
  | _ => false

/-- Fuel-bounded body of RuleEngine._try_form_melds
(src/engine/rule_engine.py).  The Python recursion terminates because
melds_needed + (len(tile_counts) − current_index) strictly decreases; the
fuel wrapper try_form_melds below supplies enough fuel, so fuel exhaustion
(false) is never reached. -/
def try_form_melds_go : Nat → List (Tile × Nat) → Nat → Nat → Bool
  | 0, _, _, _ => false
  | _ + 1, tile_counts, 0, _ => pair_check (rem_tiles tile_counts)
  | fuel + 1, tile_counts, needed + 1, i =>
    if h : i < tile_counts.length then
      let p := tile_counts.get ⟨i, h⟩
      if 3 ≤ p.2 then
        if p.2 - 3 = 0 then
          try_form_melds_go fuel ((tile_counts.set i (p.1, p.2 - 3)).eraseIdx i) needed i
        else
          try_form_melds_go fuel (tile_counts.set i (p.1, p.2 - 3)) needed i
      else
        try_form_melds_go fuel tile_counts (needed + 1) (i + 1)
    else false

/-- RuleEngine._try_form_melds (src/engine/rule_engine.py): recursively try
to consume triplets from the count list, then check the leftover is a pair. -/
def try_form_melds (tile_counts : List (Tile × Nat)) (melds_needed current_index : Nat) : Bool :=
  try_form_melds_go (melds_needed + (tile_counts.length - current_index) + 1)
    tile_counts melds_needed current_index

theorem try_form_melds_go_succ (fuel : Nat) (tcs : List (Tile × Nat)) (n i : Nat) :
    try_form_melds_go (fuel + 1) tcs (n + 1) i =
      if h : i < tcs.length then
        if 3 ≤ (tcs.get ⟨i, h⟩).2 then
          if (tcs.get ⟨i, h⟩).2 - 3 = 0 then
            try_form_melds_go fuel
              ((tcs.set i ((tcs.get ⟨i, h⟩).1, (tcs.get ⟨i, h⟩).2 - 3)).eraseIdx i) n i
          else
            try_form_melds_go fuel (tcs.set i ((tcs.get ⟨i, h⟩).1, (tcs.get ⟨i, h⟩).2 - 3)) n i
        else try_form_melds_go fuel tcs (n + 1) (i + 1)
      else false := rfl

theorem try_form_melds_go_congr : ∀ f g (tcs : List (Tile × Nat)) (needed i : Nat),
    needed + (tcs.length - i) < f → needed + (tcs.length - i) < g →
    try_form_melds_go f tcs needed i = try_form_melds_go g tcs needed i := by
  intro f
  induction f with
  | zero =>
    intro g tcs needed i hf _
    exact absurd hf (Nat.not_lt_zero _)
  | succ f ih =>
    intro g tcs needed i hf hg
    cases g with
    | zero => exact absurd hg (Nat.not_lt_zero _)
    | succ g =>
      cases needed with
      | zero => rfl
      | succ n =>
        rw [try_form_melds_go_succ, try_form_melds_go_succ]
        by_cases h : i < tcs.length
        · rw [dif_pos h, dif_pos h]
          have hset : (tcs.set i ((tcs.get ⟨i, h⟩).1, (tcs.get ⟨i, h⟩).2 - 3)).length
              = tcs.length := List.length_set tcs _ _
          by_cases h3 : 3 ≤ (tcs.get ⟨i, h⟩).2
          · rw [if_pos h3, if_pos h3]
            by_cases h0 : (tcs.get ⟨i, h⟩).2 - 3 = 0
            · rw [if_pos h0, if_pos h0]
              have herase :
                  ((tcs.set i ((tcs.get ⟨i, h⟩).1, (tcs.get ⟨i, h⟩).2 - 3)).eraseIdx i).length
                    = tcs.length - 1 := by
                have := List.length_eraseIdx_add_one (l := tcs.set i ((tcs.get ⟨i, h⟩).1, (tcs.get ⟨i, h⟩).2 - 3)) (i := i) (by rw [hset]; exact h)
                omega
              apply ih <;> rw [herase] <;> omega
            · rw [if_neg h0, if_neg h0]
              apply ih <;> rw [hset] <;> omega
          · rw [if_neg h3, if_neg h3]
            apply ih <;> omega
        · rw [dif_neg h, dif_neg h]

theorem try_form_melds_zero (tcs : List (Tile × Nat)) (i : Nat) :
    try_form_melds tcs 0 i = pair_check (rem_tiles tcs) := rfl

theorem try_form_melds_stop (tcs : List (Tile × Nat)) (n i : Nat)
    (h : ¬ i < tcs.length) :
    try_form_melds tcs (n + 1) i = false := by
  rw [try_form_melds, try_form_melds_go_succ, dif_neg h]

theorem try_form_melds_skip (tcs : List (Tile × Nat)) (n i : Nat)
    (h : i < tcs.length) (t : Tile) (c : Nat) (hget : tcs.get ⟨i, h⟩ = (t, c))
    (h3 : ¬ 3 ≤ c) :
    try_form_melds tcs (n + 1) i = try_form_melds tcs (n + 1) (i + 1) := by
  rw [try_form_melds, try_form_melds_go_succ, dif_pos h, hget, if_neg h3,
    try_form_melds]
  apply try_form_melds_go_congr <;> omega

theorem try_form_melds_take_set (tcs : List (Tile × Nat)) (n i : Nat)
    (h : i < tcs.length) (t : Tile) (c : Nat) (hget : tcs.get ⟨i, h⟩ = (t, c))
    (h3 : 3 ≤ c) (h0 : ¬ c - 3 = 0) :
    try_form_melds tcs (n + 1) i = try_form_melds (tcs.set i (t, c - 3)) n i := by
  rw [try_form_melds, try_form_melds_go_succ, dif_pos h, hget, if_pos h3, if_neg h0,
    try_form_melds]
  apply try_form_melds_go_congr <;> rw [List.length_set] <;> omega

theorem try_form_melds_take_erase (tcs : List (Tile × Nat)) (n i : Nat)
    (h : i < tcs.length) (t : Tile) (c : Nat) (hget : tcs.get ⟨i, h⟩ = (t, c))
    (h3 : 3 ≤ c) (h0 : c - 3 = 0) :
    try_form_melds tcs (n + 1) i
      = try_form_melds ((tcs.set i (t, c - 3)).eraseIdx i) n i := by
  have hset : (tcs.set i (t, c - 3)).length = tcs.length := List.length_set tcs _ _
  have herase : ((tcs.set i (t, c - 3)).eraseIdx i).length = tcs.length - 1 := by
    have := List.length_eraseIdx_add_one (l := tcs.set i (t, c - 3)) (i := i)
      (by rw [hset]; exact h)
    omega
  rw [try_form_melds, try_form_melds_go_succ, dif_pos h, hget, if_pos h3, if_pos h0,
    try_form_melds]
  apply try_form_melds_go_congr <;> rw [herase] <;> omega

/-- Does a count-list entry have residue 2 modulo 3 (i.e. demand the pair)? -/
def entry_res2 : Tile × Nat → Bool := fun p => decide (p.2 % 3 = 2)

/-- Count-vector characterization of a triplets-plus-one-pair decomposition:
total size 3·needed + 2, every multiplicity is 0 or 2 mod 3, and exactly one
entry has residue 2 (the pair). -/
def GoodCounts (tcs : List (Tile × Nat)) (needed : Nat) : Prop :=
  ((tcs.map Prod.snd).sum = 3 * needed + 2) ∧
  (∀ p ∈ tcs, p.2 % 3 = 0 ∨ p.2 % 3 = 2) ∧
  tcs.countP entry_res2 = 1

theorem pair_check_eq_true (l : List Tile) :
    pair_check l = true ↔ ∃ a, l = [a, a] := by
  match l with
  | [] => simp [pair_check]
  | [a] => simp [pair_check]
  | [a, b] =>
    simp only [pair_check, decide_eq_true_eq]
    constructor
    · rintro rfl
      exact ⟨a, rfl⟩
    · rintro ⟨x, hx⟩
      rw [List.cons_eq_cons] at hx
      obtain ⟨rfl, hx⟩ := hx
      rw [List.cons_eq_cons] at hx
      exact hx.1.symm
  | a :: b :: c :: rest =>
    simp only [pair_check]
    constructor
    · intro h
      exact absurd h (by simp)
    · rintro ⟨x, hx⟩
      have := congrArg List.length hx
      simp at this

theorem mem_rem_tiles {x : Tile} {l : List (Tile × Nat)} (h : x ∈ rem_tiles l) :
    x ∈ l.map Prod.fst := by
  rcases List.mem_flatMap.mp h with ⟨p, hp, hx⟩
  have hxp := List.eq_of_mem_replicate hx
  exact List.mem_map.mpr ⟨p, hp, hxp.symm⟩

theorem rem_tiles_eq_nil (l : List (Tile × Nat)) :
    rem_tiles l = [] ↔ ∀ p ∈ l, p.2 = 0 := by
  simp [rem_tiles, List.replicate_eq_nil]

theorem sum_eq_two_of (l : List (Tile × Nat))
    (h02 : ∀ p ∈ l, p.2 = 0 ∨ p.2 = 2) (hcnt : l.countP entry_res2 = 1) :
    (l.map Prod.snd).sum = 2 := by
  induction l with
  | nil => simp at hcnt
  | cons hd rest ih =>
    rw [List.countP_cons] at hcnt
    rcases h02 hd (List.mem_cons_self _ _) with h0 | h2
    · have he : entry_res2 hd = false := by simp [entry_res2, h0]
      simp only [he, if_false, Bool.false_eq_true, Nat.add_zero] at hcnt
      have := ih (fun p hp => h02 p (List.mem_cons_of_mem _ hp)) hcnt
      simp [h0, this]
    · have he : entry_res2 hd = true := by simp [entry_res2, h2]
      simp only [he, if_true] at hcnt
      have hrest : rest.countP entry_res2 = 0 := by omega
      have hrest0 : ∀ p ∈ rest, p.2 = 0 := by
        intro p hp
        rcases h02 p (List.mem_cons_of_mem _ hp) with h | h
        · exact h
        · exfalso
          have hp2 : entry_res2 p = true := by simp [entry_res2, h]
          have := List.countP_eq_zero.mp hrest p hp
          simp [hp2] at this
      have hz : (rest.map Prod.snd).sum = 0 := by
        apply List.sum_eq_zero
        intro x hx
        rcases List.mem_map.mp hx with ⟨p, hp, rfl⟩
        exact hrest0 p hp
      simp [h2, hz]

theorem base_good_iff (tcs : List (Tile × Nat))
    (hnd : (tcs.map Prod.fst).Nodup) :
    (pair_check (rem_tiles tcs) = true ↔ GoodCounts tcs 0) := by
  induction tcs with
  | nil =>
    simp [rem_tiles, pair_check, GoodCounts]
  | cons hd rest ih =>
    obtain ⟨t, c⟩ := hd
    rw [List.map_cons, List.nodup_cons] at hnd
    obtain ⟨htni, hnd'⟩ := hnd
    rcases c with _ | _ | _ | c
    · -- head count 0: contributes nothing
      have hr : rem_tiles ((t, 0) :: rest) = rem_tiles rest := by
        simp [rem_tiles]
      rw [hr, ih hnd']
      simp [GoodCounts, List.countP_cons, entry_res2]
    · -- head count 1: residue 1, both sides fail
      have hr : rem_tiles ((t, 1) :: rest) = t :: rem_tiles rest := by
        simp [rem_tiles]
      constructor
      · intro h
        rw [hr] at h
        rcases (pair_check_eq_true _).mp h with ⟨a, ha⟩
        rw [List.cons_eq_cons] at ha
        obtain ⟨rfl, hrem⟩ := ha
        have : t ∈ rem_tiles rest := by rw [hrem]; exact List.mem_cons_self _ _
        exact absurd (mem_rem_tiles this) htni
      · rintro ⟨_, hres, _⟩
        have := hres (t, 1) (List.mem_cons_self _ _)
        simp at this
    · -- head count 2: the pair; everything else must vanish
      have hr : rem_tiles ((t, 2) :: rest) = t :: t :: rem_tiles rest := by
        simp [rem_tiles, List.replicate_succ]
      rw [hr]
      constructor
      · intro h
        rcases (pair_check_eq_true _).mp h with ⟨a, ha⟩
        rw [List.cons_eq_cons] at ha
        obtain ⟨rfl, ha⟩ := ha
        rw [List.cons_eq_cons] at ha
        obtain ⟨-, hrem⟩ := ha
        have hall0 : ∀ p ∈ rest, p.2 = 0 := (rem_tiles_eq_nil rest).mp hrem
        refine ⟨?_, ?_, ?_⟩
        · have : (rest.map Prod.snd).sum = 0 := by
            apply List.sum_eq_zero
            intro x hx
            rcases List.mem_map.mp hx with ⟨p, hp, rfl⟩
            exact hall0 p hp
          simp [this]
        · intro p hp
          rcases List.mem_cons.mp hp with rfl | hp
          · right; rfl
          · left; rw [hall0 p hp]
        · rw [List.countP_cons]
          have he : entry_res2 (t, 2) = true := by simp [entry_res2]
          rw [he]
          have : rest.countP entry_res2 = 0 := by
            apply List.countP_eq_zero.mpr
            intro p hp
            simp [entry_res2, hall0 p hp]
          simp [this]
      · rintro ⟨hsum, _, _⟩
        rw [List.map_cons, List.sum_cons] at hsum
        have hz : (rest.map Prod.snd).sum = 0 := by omega
        have hall0 : ∀ p ∈ rest, p.2 = 0 := by
          intro p hp
          have := List.sum_eq_zero_iff.mp hz p.2 (List.mem_map.mpr ⟨p, hp, rfl⟩)
          exact this
        have hrem : rem_tiles rest = [] := (rem_tiles_eq_nil rest).mpr hall0
        rw [hrem]
        simp [pair_check]
    · -- head count ≥ 3: remaining list too long, and the sum exceeds 2
      have hr : rem_tiles ((t, c + 3) :: rest)
          = List.replicate (c + 3) t ++ rem_tiles rest := by
        simp [rem_tiles]
      constructor
      · intro h
        rw [hr] at h
        rcases (pair_check_eq_true _).mp h with ⟨a, ha⟩
        have hlen := congrArg List.length ha
        simp at hlen
        omega
      · rintro ⟨hsum, _, _⟩
        rw [List.map_cons, List.sum_cons] at hsum
        omega

theorem get_append_len (done : List (Tile × Nat)) (x : Tile × Nat)
    (rest : List (Tile × Nat)) (h : done.length < (done ++ x :: rest).length) :
    (done ++ x :: rest).get ⟨done.length, h⟩ = x := by
  induction done with
  | nil => rfl
  | cons d ds ih => exact ih _

theorem set_append_len (done : List (Tile × Nat)) (x y : Tile × Nat)
    (rest : List (Tile × Nat)) :
    (done ++ x :: rest).set done.length y = done ++ y :: rest := by
  induction done with
  | nil => rfl
  | cons d ds ih =>
    show d :: (ds ++ x :: rest).set ds.length y = d :: (ds ++ y :: rest)
    rw [ih]

theorem eraseIdx_append_len (done : List (Tile × Nat)) (x : Tile × Nat)
    (rest : List (Tile × Nat)) :
    (done ++ x :: rest).eraseIdx done.length = done ++ rest := by
  induction done with
  | nil => rfl
  | cons d ds ih =>
    show d :: (ds ++ x :: rest).eraseIdx ds.length = d :: (ds ++ rest)
    rw [ih]

theorem good_mid_sub3 (done rest : List (Tile × Nat)) (t : Tile) (c m : Nat)
    (h3 : 3 ≤ c) :
    GoodCounts (done ++ (t, c) :: rest) (m + 1)
      ↔ GoodCounts (done ++ (t, c - 3) :: rest) m := by
  have hmod : (c - 3) % 3 = c % 3 := by omega
  simp only [GoodCounts, List.map_append, List.map_cons, List.sum_append,
    List.sum_cons, List.countP_append, List.countP_cons, List.forall_mem_append,
    List.forall_mem_cons, entry_res2, hmod]
  constructor
  · rintro ⟨h1, h2, h3'⟩
    exact ⟨by omega, h2, by simpa using h3'⟩
  · rintro ⟨h1, h2, h3'⟩
    exact ⟨by omega, h2, by simpa using h3'⟩

theorem good_mid_zero (done rest : List (Tile × Nat)) (t : Tile) (m : Nat) :
    GoodCounts (done ++ (t, 0) :: rest) m ↔ GoodCounts (done ++ rest) m := by
  simp only [GoodCounts, List.map_append, List.map_cons, List.sum_append,
    List.sum_cons, List.countP_append, List.countP_cons, List.forall_mem_append,
    List.forall_mem_cons, entry_res2]
  constructor
  · rintro ⟨h1, h2, h3'⟩
    exact ⟨by simpa using h1, ⟨h2.1, h2.2.2⟩, by simpa using h3'⟩
  · rintro ⟨h1, h2, h3'⟩
    exact ⟨by simpa using h1, ⟨h2.1, by simp, h2.2⟩, by simpa using h3'⟩

/-- The greedy triplet-consuming recursion of RuleEngine._try_form_melds,
started at index done.length with all earlier entries already reduced below 3,
succeeds exactly on count lists matching the GoodCounts characterization. -/
theorem try_form_melds_good :
    ∀ (needed : Nat) (done todo : List (Tile × Nat)),
    ((done ++ todo).map Prod.fst).Nodup →
    (∀ p ∈ done, p.2 < 3) →
    (try_form_melds (done ++ todo) needed done.length = true
      ↔ GoodCounts (done ++ todo) needed) := by
  intro needed
  induction needed with
  | zero =>
    intro done todo hnd _
    rw [try_form_melds_zero]
    exact base_good_iff _ hnd
  | succ n ihN =>
    intro done todo
    induction todo generalizing done with
    | nil =>
      intro hnd hlt
      rw [List.append_nil]
      rw [List.append_nil] at hnd
      rw [try_form_melds_stop _ _ _ (by omega)]
      constructor
      · intro h
        exact absurd h (by simp)
      · rintro ⟨hsum, hres, hcnt⟩
        exfalso
        have h02 : ∀ p ∈ done, p.2 = 0 ∨ p.2 = 2 := by
          intro p hp
          have hr := hres p hp
          have hl := hlt p hp
          omega
        have hsum2 := sum_eq_two_of done h02 hcnt
        omega
    | cons hd rest ihT =>
      intro hnd hlt
      obtain ⟨t, c⟩ := hd
      have hidx : done.length < (done ++ (t, c) :: rest).length := by
        rw [List.length_append]
        simp
      have hget : (done ++ (t, c) :: rest).get ⟨done.length, hidx⟩ = (t, c) :=
        get_append_len done (t, c) rest hidx
      by_cases h3 : 3 ≤ c
      · by_cases h0 : c - 3 = 0
        · -- take a triplet, entry count drops to 0 and is removed
          have hc3 : c = 3 := by omega
          rw [try_form_melds_take_erase _ n _ hidx t c hget h3 h0]
          rw [set_append_len, eraseIdx_append_len]
          have hnd' : ((done ++ rest).map Prod.fst).Nodup := by
            refine List.Nodup.sublist ?_ hnd
            exact List.Sublist.map _
              (List.Sublist.append_left (List.sublist_cons_of_sublist _ (List.Sublist.refl _)) done)
          rw [ihN done rest hnd' hlt]
          subst hc3
          have e1 := good_mid_sub3 done rest t 3 n (by omega)
          have e2 := good_mid_zero done rest t n
          rw [show (3 : Nat) - 3 = 0 from rfl] at e1
          exact (e2.symm.trans e1.symm)
        · -- take a triplet, entry count stays positive
          rw [try_form_melds_take_set _ n _ hidx t c hget h3 h0]
          rw [set_append_len]
          have hnd' : ((done ++ (t, c - 3) :: rest).map Prod.fst).Nodup := by
            have hmf : (done ++ (t, c - 3) :: rest).map Prod.fst
                = (done ++ (t, c) :: rest).map Prod.fst := by simp
            rw [hmf]
            exact hnd
          rw [ihN done ((t, c - 3) :: rest) hnd' hlt]
          exact (good_mid_sub3 done rest t c n h3).symm
      · -- head count below 3: move on to the next distinct tile
        rw [try_form_melds_skip _ n _ hidx t c hget h3]
        have heq : done ++ (t, c) :: rest = (done ++ [(t, c)]) ++ rest := by simp
        have hlen : done.length + 1 = (done ++ [(t, c)]).length := by simp
        rw [heq, hlen]
        apply ihT (done ++ [(t, c)])
        · rw [← heq]
          exact hnd
        · intro p hp
          rcases List.mem_append.mp hp with h | h
          · exact hlt p h
          · have : p = (t, c) := by simpa using h
            subst this
            omega

theorem counter_keys (hand : List Tile) :
    (counter_items hand).map Prod.fst = first_dedup hand := by
  rw [counter_items, List.map_map]
  have hcomp : (Prod.fst ∘ fun t => (t, hand.count t)) = @id Tile := rfl
  rw [hcomp, List.map_id]

theorem counter_nodup_keys (hand : List Tile) :
    ((counter_items hand).map Prod.fst).Nodup := by
  rw [counter_keys]
  exact nodup_first_dedup hand

theorem counter_snd (hand : List Tile) :
    (counter_items hand).map Prod.snd
      = (first_dedup hand).map (fun t => hand.count t) := by
  rw [counter_items, List.map_map]
  rfl

theorem counter_sum (hand : List Tile) :
    ((counter_items hand).map Prod.snd).sum = hand.length := by
  rw [counter_snd]
  have h2 : (first_dedup hand).toFinset = hand.toFinset := by
    ext x
    simp [List.mem_toFinset, mem_first_dedup]
  rw [← List.sum_toFinset _ (nodup_first_dedup hand), h2,
    List.sum_toFinset_count_eq_length]

theorem sum_map_add_nat (l : List Tile) (f g : Tile → Nat) :
    (l.map (fun x => f x + g x)).sum = (l.map f).sum + (l.map g).sum := by
  induction l with
  | nil => rfl
  | cons a as ih =>
    simp only [List.map_cons, List.sum_cons, ih]
    omega

theorem sum_map_mul3 (l : List Tile) (f : Tile → Nat) :
    (l.map (fun x => 3 * f x)).sum = 3 * (l.map f).sum := by
  induction l with
  | nil => rfl
  | cons a as ih =>
    simp only [List.map_cons, List.sum_cons, ih]
    omega

theorem sum_eq_two_nat (l : List Nat) (h02 : ∀ x ∈ l, x = 0 ∨ x = 2)
    (hcnt : l.countP (fun x => decide (x = 2)) = 1) : l.sum = 2 := by
  induction l with
  | nil => simp at hcnt
  | cons a as ih =>
    rw [List.countP_cons] at hcnt
    rcases h02 a (List.mem_cons_self _ _) with rfl | rfl
    · simp only [List.sum_cons, Nat.zero_add]
      simp at hcnt
      exact ih (fun x hx => h02 x (List.mem_cons_of_mem _ hx)) hcnt
    · simp at hcnt
      have h0 : ∀ x ∈ as, x = 0 := by
        intro x hx
        rcases h02 x (List.mem_cons_of_mem _ hx) with rfl | rfl
        · rfl
        · exact absurd rfl (hcnt _ hx)
      have hz : as.sum = 0 := List.sum_eq_zero h0
      simp [hz]

theorem countP_eq_one_self (l : List Tile) (hl : l.Nodup) (p : Tile) (hp : p ∈ l) :
    l.countP (fun t => decide (t = p)) = 1 := by
  induction l with
  | nil => simp at hp
  | cons a as ih =>
    rw [List.nodup_cons] at hl
    rw [List.countP_cons]
    rcases List.mem_cons.mp hp with rfl | hp'
    · have hz : as.countP (fun t => decide (t = p)) = 0 := by
        apply List.countP_eq_zero.mpr
        intro t ht
        simp only [decide_eq_true_eq]
        intro hta
        subst hta
        exact hl.1 ht
      simp [hz]
    · have hne : a ≠ p := fun h => hl.1 (h ▸ hp')
      have := ih hl.2 hp'
      simp [this, hne]

theorem count_repl3_sum (l : List Tile) (a : Tile) :
    Multiset.count a ((l.map (fun u => Multiset.replicate 3 u)).sum)
      = 3 * l.count a := by
  induction l with
  | nil => simp
  | cons u rest ih =>
    rw [List.map_cons, List.sum_cons, Multiset.count_add, ih,
      Multiset.count_replicate]
    by_cases h : u = a
    · subst h
      rw [if_pos rfl, List.count_cons_self]
      omega
    · rw [if_neg h, List.count_cons_of_ne (Ne.symm h)]
      omega

theorem card_repl3_sum (l : List Tile) :
    Multiset.card ((l.map (fun u => Multiset.replicate 3 u)).sum)
      = 3 * l.length := by
  induction l with
  | nil => simp
  | cons u rest ih =>
    rw [List.map_cons, List.sum_cons, Multiset.card_add, ih,
      Multiset.card_replicate, List.length_cons]
    omega

theorem count_bind_repl (l : List Tile) (hl : l.Nodup) (f : Tile → Nat) (a : Tile) :
    (l.flatMap (fun u => List.replicate (f u) u)).count a
      = if a ∈ l then f a else 0 := by
  induction l with
  | nil => simp
  | cons u rest ih =>
    rw [List.nodup_cons] at hl
    rw [List.flatMap_cons, List.count_append, ih hl.2, List.count_replicate]
    by_cases h : a = u
    · subst h
      simp [hl.1]
    · simp only [beq_iff_eq, List.mem_cons]
      rw [if_neg (Ne.symm h)]
      simp [h]

/-- Spec wording for the decomposition: the hand splits into n triplets of
structurally identical tiles plus exactly one pair, no leftovers. -/
def CanPartition (hand : List Tile) (n : Nat) : Prop :=
  ∃ (ts : List Tile) (p : Tile),
    ts.length = n ∧
    (hand : Multiset Tile)
      = (ts.map (fun u => Multiset.replicate 3 u)).sum + Multiset.replicate 2 p

theorem good_counter_iff (hand : List Tile) (needed : Nat) :
    GoodCounts (counter_items hand) needed ↔ CanPartition hand needed := by
  constructor
  · rintro ⟨hsum, hres, hcnt⟩
    have hresk : ∀ t ∈ first_dedup hand,
        hand.count t % 3 = 0 ∨ hand.count t % 3 = 2 := by
      intro t ht
      exact hres (t, hand.count t) (List.mem_map.mpr ⟨t, ht, rfl⟩)
    have hcnt' : (first_dedup hand).countP
        (fun t => decide (hand.count t % 3 = 2)) = 1 := by
      rw [counter_items, List.countP_map] at hcnt
      simpa [Function.comp, entry_res2] using hcnt
    obtain ⟨t0, hfil⟩ := List.length_eq_one.mp
      (by rw [← List.countP_eq_length_filter]; exact hcnt')
    have ht0mem : t0 ∈ first_dedup hand ∧ hand.count t0 % 3 = 2 := by
      have hm : t0 ∈ (first_dedup hand).filter
          (fun t => decide (hand.count t % 3 = 2)) := by
        rw [hfil]
        exact List.mem_cons_self _ _
      have := List.mem_filter.mp hm
      exact ⟨this.1, by simpa using this.2⟩
    have huniq : ∀ y ∈ first_dedup hand, hand.count y % 3 = 2 → y = t0 := by
      intro y hy hy2
      have hm : y ∈ (first_dedup hand).filter
          (fun t => decide (hand.count t % 3 = 2)) :=
        List.mem_filter.mpr ⟨hy, by simpa using hy2⟩
      rw [hfil] at hm
      simpa using hm
    have hsum' : ((first_dedup hand).map (fun t => hand.count t)).sum
        = 3 * needed + 2 := by
      rw [← counter_snd]
      exact hsum
    have hmods : ((first_dedup hand).map (fun t => hand.count t % 3)).sum = 2 := by
      apply sum_eq_two_nat
      · intro x hx
        rcases List.mem_map.mp hx with ⟨t, ht, rfl⟩
        exact hresk t ht
      · rw [List.countP_map]
        simpa [Function.comp] using hcnt'
    have hdiv : ((first_dedup hand).map (fun t => hand.count t / 3)).sum
        = needed := by
      have hptw : ((first_dedup hand).map (fun t => hand.count t)).sum
          = 3 * ((first_dedup hand).map (fun t => hand.count t / 3)).sum
            + ((first_dedup hand).map (fun t => hand.count t % 3)).sum := by
        rw [← sum_map_mul3, ← sum_map_add_nat]
        have hc : ∀ t ∈ first_dedup hand,
            hand.count t = 3 * (hand.count t / 3) + hand.count t % 3 := by
          intro t _
          omega
        rw [List.map_congr_left hc]
      omega
    refine ⟨(first_dedup hand).flatMap (fun u => List.replicate (hand.count u / 3) u),
      t0, ?_, ?_⟩
    · rw [List.length_flatMap]
      have hlm : (first_dedup hand).map
            (List.length ∘ fun u => List.replicate (hand.count u / 3) u)
          = (first_dedup hand).map (fun t => hand.count t / 3) := by
        apply List.map_congr_left
        intro t _
        simp
      rw [hlm]
      exact hdiv
    · apply Multiset.ext.mpr
      intro a
      rw [Multiset.coe_count, Multiset.count_add, count_repl3_sum,
        Multiset.count_replicate, count_bind_repl _ (nodup_first_dedup hand)]
      by_cases hmem : a ∈ first_dedup hand
      · rw [if_pos hmem]
        by_cases hat : t0 = a
        · subst hat
          rw [if_pos rfl]
          have h2 := ht0mem.2
          omega
        · rw [if_neg hat]
          have hres0 : hand.count a % 3 = 0 := by
            rcases hresk a hmem with h | h
            · exact h
            · exact absurd (huniq a hmem h) (fun he => hat he.symm)
          omega
      · rw [if_neg hmem]
        have h0 : hand.count a = 0 := by
          rw [List.count_eq_zero]
          intro hmem'
          exact hmem ((mem_first_dedup hand a).mpr hmem')
        have hat : ¬ t0 = a := by
          intro he
          subst he
          exact hmem ht0mem.1
        rw [if_neg hat]
        omega
  · rintro ⟨ts, p, hlen, heq⟩
    have hcount : ∀ a, hand.count a
        = 3 * ts.count a + (if p = a then 2 else 0) := by
      intro a
      have := congrArg (Multiset.count a) heq
      rwa [Multiset.coe_count, Multiset.count_add, count_repl3_sum,
        Multiset.count_replicate] at this
    have hlength : hand.length = 3 * needed + 2 := by
      have := congrArg Multiset.card heq
      rw [Multiset.coe_card, Multiset.card_add, card_repl3_sum,
        Multiset.card_replicate, hlen] at this
      omega
    have hpmem : p ∈ hand := by
      have hc := hcount p
      rw [if_pos rfl] at hc
      have hpos : 0 < hand.count p := by omega
      exact List.count_pos_iff.mp hpos
    refine ⟨?_, ?_, ?_⟩
    · rw [counter_sum]
      exact hlength
    · intro q hq
      rcases List.mem_map.mp hq with ⟨t, ht, rfl⟩
      simp only
      have hc := hcount t
      by_cases htp : p = t
      · rw [if_pos htp] at hc
        right
        omega
      · rw [if_neg htp] at hc
        left
        omega
    · rw [counter_items, List.countP_map]
      have hpt : ∀ t ∈ first_dedup hand,
          ((entry_res2 ∘ fun t => (t, hand.count t)) t = true ↔ decide (t = p) = true) := by
        intro t ht
        simp only [Function.comp, entry_res2, decide_eq_true_eq]
        constructor
        · intro h2
          by_contra hne
          have hc := hcount t
          rw [if_neg (fun he => hne he.symm)] at hc
          omega
        · rintro rfl
          have hc := hcount t
          rw [if_pos rfl] at hc
          omega
      rw [List.countP_congr hpt]
      exact countP_eq_one_self _ (nodup_first_dedup hand) p
        ((mem_first_dedup hand p).mpr hpmem)

/-- RuleEngine._can_form_melds_and_pair (src/engine/rule_engine.py): with no
melds needed check len == 2 and hand[0] == hand[1] (same test as pair_check),
otherwise run the recursive triplet search on the Counter items. -/
def can_form_melds_and_pair (hand : List Tile) (melds_needed : Nat) : Bool :=
  if melds_needed = 0 then
    pair_check hand
  else
    try_form_melds (counter_items hand) melds_needed 0

theorem can_form_iff (hand : List Tile) (needed : Nat) :
    can_form_melds_and_pair hand needed = true ↔ CanPartition hand needed := by
  by_cases h : needed = 0
  · subst h
    rw [can_form_melds_and_pair, if_pos rfl, pair_check_eq_true]
    constructor
    · rintro ⟨a, rfl⟩
      refine ⟨[], a, rfl, ?_⟩
      simp
      rfl
    · rintro ⟨ts, p, hlen, heq⟩
      have hts : ts = [] := List.length_eq_zero.mp hlen
      subst hts
      simp only [List.map_nil, List.sum_nil, zero_add] at heq
      have hperm : hand.Perm (List.replicate 2 p) := by
        rw [← Multiset.coe_eq_coe, Multiset.coe_replicate]
        exact heq
      have hh : hand = List.replicate 2 p := List.perm_replicate.mp hperm
      exact ⟨p, hh⟩
  · obtain ⟨m, rfl⟩ : ∃ m, needed = m + 1 := ⟨needed - 1, by omega⟩
    rw [can_form_melds_and_pair, if_neg h]
    have hmain := try_form_melds_good (m + 1) [] (counter_items hand)
      (by simpa using counter_nodup_keys hand) (by simp)
    exact hmain.trans (good_counter_iff hand (m + 1))

/-- RuleEngine._check_basic_winning_pattern (src/engine/rule_engine.py).
meld_count, remaining_melds_needed and expected_hand_size are inlined; the
arithmetic is over Int exactly as Python ints behave when len(melds) > 4. -/
def check_basic_winning_pattern (hand : List Tile) (melds : List Meld) : Bool :=
  if (hand.length : Int) = (4 - (melds.length : Int)) * 3 + 2 then
    can_form_melds_and_pair hand ((4 : Int) - (melds.length : Int)).toNat
  else false

/-- Claim C1: for every concealed tile list H and meld list with
m = melds.length ≤ 4, the winning-pattern check succeeds iff the hand has
exactly 3·(4−m)+2 tiles and splits into (4−m) triplets of identical tiles
plus exactly one pair with nothing left over. -/
theorem check_basic_winning_pattern_iff (H : List Tile) (melds : List Meld)
    (hm : melds.length ≤ 4) :
    check_basic_winning_pattern H melds = true ↔
      (H.length = 3 * (4 - melds.length) + 2 ∧
        CanPartition H (4 - melds.length)) := by
  rw [check_basic_winning_pattern]
  by_cases hc : (H.length : Int) = (4 - (melds.length : Int)) * 3 + 2
  · rw [if_pos hc]
    have hnat : H.length = 3 * (4 - melds.length) + 2 := by omega
    have htn : ((4 : Int) - (melds.length : Int)).toNat = 4 - melds.length := by
      omega
    rw [htn, can_form_iff]
    constructor
    · intro hcp
      exact ⟨hnat, hcp⟩
    · rintro ⟨-, hcp⟩
      exact hcp
  · rw [if_neg hc]
    constructor
    · intro h
      exact absurd h (by simp)
    · rintro ⟨hlen, -⟩
      exact absurd (by omega : (H.length : Int) = (4 - (melds.length : Int)) * 3 + 2) hc

/-- A 14-tile hand of four disjoint triplets plus a pair, used as witness. -/
def demo_hand14 : List Tile :=
  [⟨Suit.WAN, 1⟩, ⟨Suit.WAN, 1⟩, ⟨Suit.WAN, 1⟩,
   ⟨Suit.WAN, 2⟩, ⟨Suit.WAN, 2⟩, ⟨Suit.WAN, 2⟩,
   ⟨Suit.WAN, 3⟩, ⟨Suit.WAN, 3⟩, ⟨Suit.WAN, 3⟩,
   ⟨Suit.TONG, 4⟩, ⟨Suit.TONG, 4⟩, ⟨Suit.TONG, 4⟩,
   ⟨Suit.TIAO, 5⟩, ⟨Suit.TIAO, 5⟩]

/-- Witness for C1 at a concrete 14-tile hand with no revealed melds. -/
theorem check_basic_winning_pattern_iff_witness :
    demo_hand14.length = 3 * (4 - ([] : List Meld).length) + 2 ∧
      CanPartition demo_hand14 (4 - ([] : List Meld).length) :=
  (check_basic_winning_pattern_iff demo_hand14 [] (by decide)).mp (by decide)

/-- The candidate full tile set of RuleEngine.is_winning_hand: the hand plus
the winning tile when present. -/
def full_hand (hand : List Tile) (win_tile : Option Tile) : List Tile :=
  hand ++ win_tile.toList

/-- RuleEngine.is_winning_hand (src/engine/rule_engine.py): require a declared
lack suit, reject any tile of that suit, then run the pattern check. -/
def is_winning_hand (hand : List Tile) (melds : List Meld)
    (win_tile : Option Tile) (lack_suit : Option Suit) : Bool :=
  match lack_suit with
  | none => false
  | some lack =>
    if (full_hand hand win_tile).any (fun tile => decide (tile.suit = lack)) then
      false
    else
      check_basic_winning_pattern (full_hand hand win_tile) melds

/-- Claim C2: lack-suit exclusion.  If any tile of the candidate full tile set
(hand plus winning tile, if present) has the declared lack suit, the hand is
rejected regardless of whether it would otherwise decompose. -/
theorem lack_suit_exclusion (hand : List Tile) (melds : List Meld)
    (win_tile : Option Tile) (s : Suit)
    (h : ∃ t ∈ full_hand hand win_tile, t.suit = s) :
    is_winning_hand hand melds win_tile (some s) = false := by
  have hany : (full_hand hand win_tile).any (fun tile => decide (tile.suit = s))
      = true := by
    rcases h with ⟨t, ht, hs⟩
    exact List.any_eq_true.mpr ⟨t, ht, by simp [hs]⟩
  simp [is_winning_hand, hany]

/-- Witness for C2: a one-TIAO tile in hand with TIAO declared as lack suit. -/
theorem lack_suit_exclusion_witness :
    is_winning_hand [⟨Suit.TIAO, 1⟩] [] none (some Suit.TIAO) = false :=
  lack_suit_exclusion [⟨Suit.TIAO, 1⟩] [] none Suit.TIAO
    ⟨⟨Suit.TIAO, 1⟩, by decide, rfl⟩

/-- SUITS_LIST from src/utils/constants.py. -/
def SUITS_LIST : List Suit := [Suit.WAN, Suit.TONG, Suit.TIAO]

/-- The counting loop of HandAnalyzer._is_winning_hand_simple: tally pairs and
triplets over Counter items, rejecting counts of 1 (or anything else). -/
def simple_count_loop : List (Tile × Nat) → Nat → Nat → Bool
  | [], pairs, triplets => decide (pairs = 1) && decide (triplets = 4)
  | (_, c) :: rest, pairs, triplets =>
    if c = 2 then simple_count_loop rest (pairs + 1) triplets
    else if c = 3 then simple_count_loop rest pairs (triplets + 1)
    else if c = 4 then simple_count_loop rest pairs (triplets + 1)
    else false

/-- HandAnalyzer._is_winning_hand_simple (src/player/hand_analyzer.py). -/
def is_winning_hand_simple (hand : List Tile) : Bool :=
  if hand.length = 14 then simple_count_loop (counter_items hand) 0 0
  else false

/-- The 27 candidate tiles built in HandAnalyzer._check_winning_tiles. -/
def all_possible_tiles : List Tile :=
  SUITS_LIST.flatMap (fun s => (List.range' 1 9).map (fun r => ⟨s, r⟩))

/-- HandAnalyzer._check_winning_tiles (src/player/hand_analyzer.py): the
string names of all candidate tiles whose addition wins. -/
def check_winning_tiles (hand : List Tile) : List (List Char) :=
  (all_possible_tiles.filter
    (fun t => is_winning_hand_simple (hand ++ [t]))).map tile_str

/-- One entry of ting_info discard_options in HandAnalyzer._find_ting. -/
structure TingOption where
  discard : List Char
  can_win_with : List (List Char)
deriving DecidableEq, Repr

/-- The ting_info dictionary built by HandAnalyzer._find_ting. -/
structure TingInfo where
  is_ting : Bool
  ting_tiles : List (List Char)
  discard_options : List TingOption
deriving DecidableEq, Repr

/-- HandAnalyzer._find_ting (src/player/hand_analyzer.py).  Python iterates
over set(hand), whose order is unspecified; first-occurrence order is used
here (no property proved below depends on the order).  temp.remove(d) removes
the first occurrence, i.e. List.erase; the ting_tiles set union becomes a
deduplicated concatenation. -/
def find_ting (hand : List Tile) : TingInfo :=
  let opts := (first_dedup hand).filterMap (fun d =>
    if (check_winning_tiles (hand.erase d)).isEmpty then none
    else some ⟨tile_str d, check_winning_tiles (hand.erase d)⟩)
  { is_ting := !opts.isEmpty
    ting_tiles := ((opts.map TingOption.can_win_with).flatten).dedup
    discard_options := opts }

/-- Claim C3: _is_winning_hand_simple rejects every hand that is not exactly
14 tiles; consequently _find_ting on any 13-tile hand (testing 12-tile
remainders plus one candidate, i.e. 13-tile sets) reports no waiting state:
is_ting is false and both lists are empty. -/
theorem find_ting_thirteen (hand : List Tile) :
    (hand.length ≠ 14 → is_winning_hand_simple hand = false) ∧
    (hand.length = 13 →
      find_ting hand
        = { is_ting := false, ting_tiles := [], discard_options := [] }) := by
  constructor
  · intro h
    rw [is_winning_hand_simple, if_neg h]
  · intro h13
    have hopts : (first_dedup hand).filterMap (fun d =>
        if (check_winning_tiles (hand.erase d)).isEmpty then none
        else some (⟨tile_str d, check_winning_tiles (hand.erase d)⟩ : TingOption))
        = [] := by
      apply List.filterMap_eq_nil.mpr
      intro d hd
      have hdm : d ∈ hand := (mem_first_dedup hand d).mp hd
      have herase : (hand.erase d).length = 12 := by
        rw [List.length_erase_of_mem hdm, h13]
      have hws : check_winning_tiles (hand.erase d) = [] := by
        rw [check_winning_tiles]
        have hf : all_possible_tiles.filter
            (fun t => is_winning_hand_simple ((hand.erase d) ++ [t])) = [] := by
          apply List.filter_eq_nil.mpr
          intro t _
          have hlen : ((hand.erase d) ++ [t]).length = 13 := by
            rw [List.length_append, herase]
            rfl
          rw [is_winning_hand_simple, if_neg (by omega)]
          simp
        rw [hf, List.map_nil]
      simp [hws]
    rw [find_ting]
    simp only [hopts]
    rfl

/-- A concrete 13-tile hand for the C3 witness. -/
def demo_hand13 : List Tile :=
  [⟨Suit.WAN, 1⟩, ⟨Suit.WAN, 1⟩, ⟨Suit.WAN, 1⟩,
   ⟨Suit.WAN, 2⟩, ⟨Suit.WAN, 2⟩, ⟨Suit.WAN, 2⟩,
   ⟨Suit.WAN, 3⟩, ⟨Suit.WAN, 3⟩, ⟨Suit.WAN, 3⟩,
   ⟨Suit.TONG, 4⟩, ⟨Suit.TONG, 4⟩, ⟨Suit.TONG, 4⟩,
   ⟨Suit.TIAO, 5⟩]

/-- Witness for C3 at a concrete 13-tile hand. -/
theorem find_ting_thirteen_witness :
    find_ting demo_hand13
      = { is_ting := false, ting_tiles := [], discard_options := [] } :=
  (find_ting_thirteen demo_hand13).2 (by decide)

/-- An action (src/core/action.py): type plus optional tile and suit. -/
structure Action where
  action_type : ActionType
  tile : Option Tile
  suit : Option Suit
deriving DecidableEq, Repr

/-- The last_action record written by Game._process_action: acting player id,
action type, and str(action.tile) (empty when the action has no tile). -/
structure LastAction where
  player_id : Nat
  action : ActionType
  tile : List Char
deriving DecidableEq, Repr

/-- One player's entry in game_state: hand, melds, lack_suit, mirroring
Game._update_players_info; dict.get defaults give missing keys empty values. -/
structure PlayerInfo where
  hand : List Tile
  melds : List Meld
  lack_suit : Option Suit
deriving DecidableEq, Repr

/-- The game_state dict as read by RuleEngine.is_valid_action and written by
Game._process_action.  players is a total map: querying an absent player id
yields the empty PlayerInfo, matching the chained dict.get defaults. -/
structure GameState where
  current_player_id : Option Nat
  players : Nat → PlayerInfo
  last_discard : Option Tile
  phase : GamePhase
  last_action : Option LastAction

/-- The has_pong generator expression in the GANG branch of
RuleEngine.is_valid_action: some owned meld is a PONG based on this tile. -/
def has_pong_meld (melds : List Meld) (t : Tile) : Bool :=
  melds.any (fun meld =>
    decide (meld.meld_type = .PONG) && decide (meld.base_tile = some t))

/-- RuleEngine.is_valid_action (src/engine/rule_engine.py): validates one
action against the game_state dict. -/
def is_valid_action (action : Action) (game_state : GameState) : Bool :=
  match game_state.current_player_id with
  | none => false
  | some player_id =>
    match action.action_type with
    | .DISCARD =>
      match action.tile with
      | none => false
      | some t => decide (t ∈ (game_state.players player_id).hand)
    | .PONG =>
      match game_state.last_discard with
      | none => false
      | some last_discard =>
        decide (2 ≤ (game_state.players player_id).hand.count last_discard)
    | .GANG =>
      match action.tile with
      | none => false
      | some t =>
        if (game_state.players player_id).hand.count t = 4 then true
        else if game_state.last_discard = some t
            ∧ (game_state.players player_id).hand.count t = 3 then true
        else if has_pong_meld (game_state.players player_id).melds t = true
            ∧ (game_state.players player_id).hand.count t = 1 then true
        else false
    | .HU =>
      is_winning_hand (game_state.players player_id).hand
        (game_state.players player_id).melds
        game_state.last_discard
        (game_state.players player_id).lack_suit
    | .PASS => true
    | .LACK => decide (game_state.phase = .LACK_SELECTION)

/-- The spec's own-discard side condition for Pong, read off the last_action
record the engine itself writes: the last recorded action is a DISCARD by
this same player. -/
def own_last_discard (gs : GameState) (pid : Nat) : Prop :=
  ∃ la, gs.last_action = some la ∧ la.action = ActionType.DISCARD ∧ la.player_id = pid

/-- Shorthand tile used in concrete states below. -/
def t_one_wan : Tile := ⟨Suit.WAN, 1⟩

/-- A concrete state in which player 0 itself just discarded one-WAN (per the
last_action record), still holds two more copies, and is the acting player. -/
def gs_c4 : GameState :=
  { current_player_id := some 0
    players := fun pid =>
      if pid = 0 then ⟨[t_one_wan, t_one_wan], [], none⟩ else ⟨[], [], none⟩
    last_discard := some t_one_wan
    phase := .PLAYING
    last_action := some ⟨0, .DISCARD, tile_str t_one_wan⟩ }

/-- Counterexample to C4 as stated: the engine accepts player 0's PONG on
player 0's own recorded discard, because is_valid_action never consults the
discard's owner; so acceptance is not equivalent to the claimed condition
that also demands the discard not be the actor's own. -/
theorem pong_own_discard_counterexample :
    ¬ (is_valid_action ⟨.PONG, none, none⟩ gs_c4 = true ↔
        ((∃ ld, gs_c4.last_discard = some ld
            ∧ 2 ≤ (gs_c4.players 0).hand.count ld)
          ∧ ¬ own_last_discard gs_c4 0)) := by
  intro h
  have haccept : is_valid_action ⟨.PONG, none, none⟩ gs_c4 = true := by decide
  have hown : own_last_discard gs_c4 0 :=
    ⟨⟨0, .DISCARD, tile_str t_one_wan⟩, rfl, rfl, rfl⟩
  exact (h.mp haccept).2 hown

/-- Claim C4 (amended): is_valid_action accepts a PONG action exactly when a
tile was just discarded and the acting player's concealed hand holds at least
2 copies of it; the code performs no own-discard check. -/
theorem pong_accept_iff (gs : GameState) (pid : Nat)
    (hpid : gs.current_player_id = some pid) (tl : Option Tile) (su : Option Suit) :
    (is_valid_action ⟨.PONG, tl, su⟩ gs = true ↔
      ∃ ld, gs.last_discard = some ld ∧ 2 ≤ (gs.players pid).hand.count ld) := by
  cases hld : gs.last_discard with
  | none =>
    simp only [is_valid_action, hpid, hld]
    simp
  | some ld =>
    simp only [is_valid_action, hpid, hld]
    simp

/-- Witness for the amended C4 at the concrete state gs_c4. -/
theorem pong_accept_iff_witness :
    is_valid_action ⟨.PONG, none, none⟩ gs_c4 = true :=
  (pong_accept_iff gs_c4 0 rfl none none).mpr ⟨t_one_wan, rfl, by decide⟩

theorem has_pong_meld_iff (melds : List Meld) (t : Tile) :
    has_pong_meld melds t = true ↔
      ∃ m ∈ melds, m.meld_type = .PONG ∧ m.base_tile = some t := by
  simp [has_pong_meld, List.any_eq_true]

/-- Claim C5: a GANG action with tile t is accepted iff the hand holds exactly
4 copies (concealed kong), or t is the just-discarded tile and the hand holds
exactly 3 (open kong), or the player owns a PONG meld based on t and holds
exactly 1 more copy (added kong); a GANG action with no tile is rejected. -/
theorem gang_accept_iff (gs : GameState) (pid : Nat)
    (hpid : gs.current_player_id = some pid) :
    (∀ (t : Tile) (su : Option Suit),
      is_valid_action ⟨.GANG, some t, su⟩ gs = true ↔
        ((gs.players pid).hand.count t = 4 ∨
         (gs.last_discard = some t ∧ (gs.players pid).hand.count t = 3) ∨
         ((∃ m ∈ (gs.players pid).melds,
            m.meld_type = .PONG ∧ m.base_tile = some t)
           ∧ (gs.players pid).hand.count t = 1))) ∧
    (∀ su : Option Suit, is_valid_action ⟨.GANG, none, su⟩ gs = false) := by
  constructor
  · intro t su
    simp only [is_valid_action, hpid]
    split_ifs with h4 h3 hp
    · exact iff_of_true rfl (Or.inl h4)
    · exact iff_of_true rfl (Or.inr (Or.inl h3))
    · exact iff_of_true rfl
        (Or.inr (Or.inr ⟨(has_pong_meld_iff _ t).mp hp.1, hp.2⟩))
    · refine iff_of_false (by simp) ?_
      rintro (h | h | h)
      · exact h4 h
      · exact h3 h
      · exact hp ⟨(has_pong_meld_iff _ t).mpr h.1, h.2⟩
  · intro su
    simp only [is_valid_action, hpid]

/-- A concrete state where player 0 holds four one-WAN copies. -/
def gs_c5 : GameState :=
  { current_player_id := some 0
    players := fun pid =>
      if pid = 0 then ⟨[t_one_wan, t_one_wan, t_one_wan, t_one_wan], [], none⟩
      else ⟨[], [], none⟩
    last_discard := none
    phase := .PLAYING
    last_action := none }

/-- Witness for C5: a concealed kong of four one-WAN is accepted. -/
theorem gang_accept_iff_witness :
    is_valid_action ⟨.GANG, some t_one_wan, none⟩ gs_c5 = true :=
  ((gang_accept_iff gs_c5 0 rfl).1 t_one_wan none).mpr (Or.inl (by decide))

/-- The engine state touched by Game._process_action and its handlers: the
four LLMPlayer objects' hands/melds/lack suits/win counters plus the flow
fields of Game and its game_state dict (discard logs, current player, phase,
winners, last discard, last action). -/
structure GameS where
  hands : Fin 4 → List Tile
  melds : Fin 4 → List Meld
  lack_suits : Fin 4 → Option Suit
  wins : Fin 4 → Nat
  discards : Fin 4 → List (List Char)
  current_player_id : Fin 4
  phase : GamePhase
  winners : List Nat
  last_discard : Option Tile
  last_action : Option LastAction

/-- The game_state dict view consumed by is_valid_action, as kept in sync by
Game._update_players_info for the four seated players. -/
def to_game_state (g : GameS) : GameState :=
  { current_player_id := some g.current_player_id.val
    players := fun pid =>
      if h : pid < 4 then
        ⟨g.hands ⟨pid, h⟩, g.melds ⟨pid, h⟩, g.lack_suits ⟨pid, h⟩⟩
      else ⟨[], [], none⟩
    last_discard := g.last_discard
    phase := g.phase
    last_action := g.last_action }

/-- Game._next_player (src/engine/game.py): advance to (current + 1) % 4. -/
def next_player (g : GameS) : GameS :=
  { g with current_player_id := ⟨(g.current_player_id.val + 1) % 4, by omega⟩ }

/-- str(action.tile) if action.tile else "" (Game._process_action). -/
def tile_str_opt : Option Tile → List Char
  | none => []
  | some t => tile_str t

/-- Game._handle_discard (src/engine/game.py): when the action carries a tile
present in the hand (LLMPlayer.remove_tile removes the first occurrence and
reports success), the tile moves to the discard log and becomes last_discard;
_ask_other_players_for_response is a no-op stub; the turn then always
advances to the next player. -/
def handle_discard (g : GameS) (action : Action) : GameS :=
  next_player <|
    match action.tile with
    | none => g
    | some t =>
      if t ∈ g.hands g.current_player_id then
        { g with
          hands := fun i =>
            if i = g.current_player_id then (g.hands i).erase t else g.hands i
          discards := fun i =>
            if i = g.current_player_id then g.discards i ++ [tile_str t]
            else g.discards i
          last_discard := some t }
      else g

/-- Game._handle_hu (src/engine/game.py): record the winner, bump their win
counter, end the round. -/
def handle_hu (g : GameS) : GameS :=
  { g with
    winners := g.winners ++ [g.current_player_id.val]
    wins := fun i => if i = g.current_player_id then g.wins i + 1 else g.wins i
    phase := GamePhase.ENDED }

/-- Game._process_action (src/engine/game.py).  The Bool output records
whether the proposed action failed validation and was replaced by PASS (the
code renders the rejection message at that point); the PONG/GANG handlers
only render placeholder text and mutate nothing, and LACK has no handler. -/
def process_action (g : GameS) (action : Action) : GameS × Bool :=
  let valid := is_valid_action action (to_game_state g)
  let acted : Action := if valid then action else ⟨.PASS, none, none⟩
  let g1 := { g with
    last_action := some
      ⟨g.current_player_id.val, acted.action_type, tile_str_opt acted.tile⟩ }
  match acted.action_type with
  | .DISCARD => (handle_discard g1 acted, !valid)
  | .PONG => (g1, !valid)
  | .GANG => (g1, !valid)
  | .HU => (handle_hu g1, !valid)
  | .PASS => (next_player g1, !valid)
  | .LACK => (g1, !valid)

theorem handle_discard_current (g : GameS) (a : Action) :
    (handle_discard g a).current_player_id
      = ⟨(g.current_player_id.val + 1) % 4, by omega⟩ := by
  rw [handle_discard]
  cases a.tile with
  | none => rfl
  | some t =>
    by_cases h : t ∈ g.hands g.current_player_id
    · simp only [if_pos h]
      rfl
    · simp only [if_neg h]
      rfl

/-- Claim C8: every action rejected by is_valid_action is reported (the Bool
output is the rendered rejection) and replaced by the safe default PASS, so
no hand, meld list or discard log changes, the phase and winner list are
untouched, the substituted PASS is what gets recorded, and the turn simply
advances: the round continues instead of aborting. -/
theorem illegal_action_substitution (g : GameS) (a : Action)
    (h : is_valid_action a (to_game_state g) = false) :
    (process_action g a).2 = true ∧
    (process_action g a).1.hands = g.hands ∧
    (process_action g a).1.melds = g.melds ∧
    (process_action g a).1.discards = g.discards ∧
    (process_action g a).1.winners = g.winners ∧
    (process_action g a).1.phase = g.phase ∧
    (process_action g a).1.current_player_id
      = ⟨(g.current_player_id.val + 1) % 4, by omega⟩ ∧
    (process_action g a).1.last_action
      = some ⟨g.current_player_id.val, ActionType.PASS, []⟩ := by
  simp only [process_action, h, if_false, Bool.false_eq_true, ite_false]
  exact ⟨rfl, rfl, rfl, rfl, rfl, rfl, rfl, rfl⟩

/-- Witness for C8: a PONG with no prior discard is rejected and substituted. -/
theorem illegal_action_substitution_witness :
    (process_action
      { hands := fun _ => []
        melds := fun _ => []
        lack_suits := fun _ => none
        wins := fun _ => 0
        discards := fun _ => []
        current_player_id := 0
        phase := GamePhase.PLAYING
        winners := []
        last_discard := none
        last_action := none } ⟨.PONG, none, none⟩).2 = true :=
  (illegal_action_substitution _ ⟨.PONG, none, none⟩ (by decide)).1

/-- Claim C10: processing a Discard action (claim solicitation is a stub, so
no claim ever succeeds) leaves the current player advanced by exactly one
seat mod 4; if the Discard was invalid the substituted PASS advances the
turn identically. -/
theorem discard_advances_turn (g : GameS) (a : Action)
    (h : a.action_type = .DISCARD) :
    (process_action g a).1.current_player_id
      = ⟨(g.current_player_id.val + 1) % 4, by omega⟩ := by
  by_cases hv : is_valid_action a (to_game_state g) = true
  · simp only [process_action, hv, ite_true, h]
    rw [handle_discard_current]
  · have hv' : is_valid_action a (to_game_state g) = false := by
      cases hb : is_valid_action a (to_game_state g)
      · rfl
      · exact absurd hb hv
    simp only [process_action, hv', if_false, Bool.false_eq_true, ite_false]
    rfl

/-- Witness for C10: discarding the sole one-WAN in hand advances player 0
to player 1. -/
theorem discard_advances_turn_witness :
    (process_action
      { hands := fun i => if i = 0 then [t_one_wan] else []
        melds := fun _ => []
        lack_suits := fun _ => none
        wins := fun _ => 0
        discards := fun _ => []
        current_player_id := 0
        phase := GamePhase.PLAYING
        winners := []
        last_discard := none
        last_action := none } ⟨.DISCARD, some t_one_wan, none⟩).1.current_player_id
      = ⟨1, by omega⟩ :=
  discard_advances_turn _ ⟨.DISCARD, some t_one_wan, none⟩ rfl

/-- The wall built in Game._shuffle_and_deal: for each suit, for each rank
1..9, TOTAL_TILES_PER_RANK = 4 copies. -/
def build_wall : List Tile :=
  SUITS_LIST.flatMap (fun s =>
    (List.range' 1 9).flatMap (fun r => List.replicate 4 ⟨s, r⟩))

/-- One wall.pop() plus player.add_tile step of the dealing loop, guarded by
`if self.wall`: remove the last wall tile (if any) and append it to a hand. -/
def draw_tile (wall hand : List Tile) : List Tile × List Tile :=
  match wall.getLast? with
  | none => (wall, hand)
  | some t => (wall.dropLast, hand ++ [t])

/-- The four hands dealt in seating order. -/
structure Hands where
  h0 : List Tile
  h1 : List Tile
  h2 : List Tile
  h3 : List Tile
deriving DecidableEq, Repr

/-- One pass of the inner `for player in self.players` loop of
Game._shuffle_and_deal: deal one tile to each of the 4 players in order
(the nested draw_tile applications sequence the four pops). -/
def deal_round (wall : List Tile) (hs : Hands) : List Tile × Hands :=
  ((draw_tile (draw_tile (draw_tile (draw_tile wall hs.h0).1 hs.h1).1 hs.h2).1
      hs.h3).1,
   ⟨(draw_tile wall hs.h0).2,
    (draw_tile (draw_tile wall hs.h0).1 hs.h1).2,
    (draw_tile (draw_tile (draw_tile wall hs.h0).1 hs.h1).1 hs.h2).2,
    (draw_tile (draw_tile (draw_tile (draw_tile wall hs.h0).1 hs.h1).1 hs.h2).1
      hs.h3).2⟩)

/-- The outer `for _ in range(HAND_SIZE)` loop of Game._shuffle_and_deal. -/
def deal_all : Nat → List Tile → Hands → List Tile × Hands
  | 0, wall, hs => (wall, hs)
  | n + 1, wall, hs => deal_all n (deal_round wall hs).1 (deal_round wall hs).2

/-- Game._shuffle_and_deal after random.shuffle: deal HAND_SIZE = 13 tiles to
each of the 4 players from the given (arbitrarily permuted) wall. -/
def shuffle_and_deal (wall : List Tile) : List Tile × Hands :=
  deal_all 13 wall ⟨[], [], [], []⟩

/-- The global multiset of tiles across the wall and all four hands. -/
def total_tiles (w : List Tile) (hs : Hands) : Multiset Tile :=
  (w : Multiset Tile) + ↑hs.h0 + ↑hs.h1 + ↑hs.h2 + ↑hs.h3

theorem draw_tile_conserve (w h : List Tile) :
    ((draw_tile w h).1 : Multiset Tile) + ↑(draw_tile w h).2
      = (w : Multiset Tile) + ↑h := by
  rw [draw_tile]
  cases hl : w.getLast? with
  | none => rfl
  | some t =>
    have hw : w.dropLast ++ [t] = w := List.dropLast_append_getLast? t hl
    simp only
    conv_rhs => rw [← hw]
    rw [Multiset.coe_add, Multiset.coe_add, Multiset.coe_eq_coe,
      List.append_assoc]
    exact List.Perm.append_left _ List.perm_append_comm

theorem deal_round_conserve (w : List Tile) (hs : Hands) :
    total_tiles (deal_round w hs).1 (deal_round w hs).2 = total_tiles w hs := by
  have c0 := draw_tile_conserve w hs.h0
  have c1 := draw_tile_conserve (draw_tile w hs.h0).1 hs.h1
  have c2 := draw_tile_conserve (draw_tile (draw_tile w hs.h0).1 hs.h1).1 hs.h2
  have c3 := draw_tile_conserve
    (draw_tile (draw_tile (draw_tile w hs.h0).1 hs.h1).1 hs.h2).1 hs.h3
  rw [deal_round, total_tiles, total_tiles]
  simp only
  calc ((draw_tile (draw_tile (draw_tile (draw_tile w hs.h0).1 hs.h1).1 hs.h2).1
          hs.h3).1 : Multiset Tile)
        + ↑(draw_tile w hs.h0).2
        + ↑(draw_tile (draw_tile w hs.h0).1 hs.h1).2
        + ↑(draw_tile (draw_tile (draw_tile w hs.h0).1 hs.h1).1 hs.h2).2
        + ↑(draw_tile (draw_tile (draw_tile (draw_tile w hs.h0).1 hs.h1).1
            hs.h2).1 hs.h3).2
      = (((draw_tile (draw_tile (draw_tile (draw_tile w hs.h0).1 hs.h1).1
            hs.h2).1 hs.h3).1 : Multiset Tile)
          + ↑(draw_tile (draw_tile (draw_tile (draw_tile w hs.h0).1 hs.h1).1
              hs.h2).1 hs.h3).2)
        + ↑(draw_tile (draw_tile (draw_tile w hs.h0).1 hs.h1).1 hs.h2).2
        + ↑(draw_tile (draw_tile w hs.h0).1 hs.h1).2
        + ↑(draw_tile w hs.h0).2 := by abel
    _ = (((draw_tile (draw_tile (draw_tile w hs.h0).1 hs.h1).1 hs.h2).1
            : Multiset Tile)
          + ↑(draw_tile (draw_tile (draw_tile w hs.h0).1 hs.h1).1 hs.h2).2)
        + ↑hs.h3
        + ↑(draw_tile (draw_tile w hs.h0).1 hs.h1).2
        + ↑(draw_tile w hs.h0).2 := by rw [c3]; abel
    _ = (((draw_tile (draw_tile w hs.h0).1 hs.h1).1 : Multiset Tile)
          + ↑(draw_tile (draw_tile w hs.h0).1 hs.h1).2)
        + ↑hs.h2 + ↑hs.h3
        + ↑(draw_tile w hs.h0).2 := by rw [c2]; abel
    _ = (((draw_tile w hs.h0).1 : Multiset Tile) + ↑(draw_tile w hs.h0).2)
        + ↑hs.h1 + ↑hs.h2 + ↑hs.h3 := by rw [c1]; abel
    _ = (w : Multiset Tile) + ↑hs.h0 + ↑hs.h1 + ↑hs.h2 + ↑hs.h3 := by
        rw [c0]

theorem deal_all_conserve : ∀ (n : Nat) (w : List Tile) (hs : Hands),
    total_tiles (deal_all n w hs).1 (deal_all n w hs).2 = total_tiles w hs := by
  intro n
  induction n with
  | zero => intro w hs; rfl
  | succ n ih =>
    intro w hs
    rw [deal_all]
    rw [ih]
    exact deal_round_conserve w hs

theorem draw_tile_len (w h : List Tile) (hw : w ≠ []) :
    (draw_tile w h).1.length = w.length - 1
      ∧ (draw_tile w h).2.length = h.length + 1 := by
  rw [draw_tile]
  cases hl : w.getLast? with
  | none =>
    exact absurd (List.getLast?_eq_none_iff.mp hl) hw
  | some t =>
    simp [List.length_dropLast]

theorem deal_round_len (w : List Tile) (hs : Hands) (hw : 4 ≤ w.length) :
    (deal_round w hs).1.length = w.length - 4 ∧
    (deal_round w hs).2.h0.length = hs.h0.length + 1 ∧
    (deal_round w hs).2.h1.length = hs.h1.length + 1 ∧
    (deal_round w hs).2.h2.length = hs.h2.length + 1 ∧
    (deal_round w hs).2.h3.length = hs.h3.length + 1 := by
  have l0 := draw_tile_len w hs.h0
    (by intro he; rw [he] at hw; simp at hw)
  have l1 := draw_tile_len (draw_tile w hs.h0).1 hs.h1
    (by intro he; have := congrArg List.length he; rw [l0.1] at this; simp at this; omega)
  have l2 := draw_tile_len (draw_tile (draw_tile w hs.h0).1 hs.h1).1 hs.h2
    (by intro he; have := congrArg List.length he
        rw [l1.1, l0.1] at this; simp at this; omega)
  have l3 := draw_tile_len
    (draw_tile (draw_tile (draw_tile w hs.h0).1 hs.h1).1 hs.h2).1 hs.h3
    (by intro he; have := congrArg List.length he
        rw [l2.1, l1.1, l0.1] at this; simp at this; omega)
  rw [deal_round]
  refine ⟨?_, l0.2, l1.2, l2.2, l3.2⟩
  rw [l3.1, l2.1, l1.1, l0.1]
  omega

theorem deal_all_len : ∀ (n : Nat) (w : List Tile) (hs : Hands),
    4 * n ≤ w.length →
    ((deal_all n w hs).1.length = w.length - 4 * n ∧
     (deal_all n w hs).2.h0.length = hs.h0.length + n ∧
     (deal_all n w hs).2.h1.length = hs.h1.length + n ∧
     (deal_all n w hs).2.h2.length = hs.h2.length + n ∧
     (deal_all n w hs).2.h3.length = hs.h3.length + n) := by
  intro n
  induction n with
  | zero =>
    intro w hs _
    exact ⟨by simp [deal_all], by simp [deal_all], by simp [deal_all],
      by simp [deal_all], by simp [deal_all]⟩
  | succ n ih =>
    intro w hs hle
    have hr := deal_round_len w hs (by omega)
    have hrec := ih (deal_round w hs).1 (deal_round w hs).2 (by rw [hr.1]; omega)
    rw [deal_all]
    refine ⟨?_, ?_, ?_, ?_, ?_⟩
    · rw [hrec.1, hr.1]; omega
    · rw [hrec.2.1, hr.2.1]; omega
    · rw [hrec.2.2.1, hr.2.2.1]; omega
    · rw [hrec.2.2.2.1, hr.2.2.2.1]; omega
    · rw [hrec.2.2.2.2, hr.2.2.2.2]; omega

theorem build_wall_length : build_wall.length = 108 := rfl

theorem build_wall_count (t : Tile) (h1 : 1 ≤ t.rank) (h2 : t.rank ≤ 9) :
    build_wall.count t = 4 := by
  obtain ⟨s, r⟩ := t
  simp only at h1 h2
  cases s <;> interval_cases r <;> decide

/-- Claim C9: the wall holds exactly 108 tiles, 4 copies of each of the 27
denominations; dealing 13 tiles to each of the 4 players from any shuffle of
it leaves exactly 56 wall tiles, gives each player 13 tiles, and preserves
the global multiset: wall plus hands still hold 4 copies of each
denomination. -/
theorem deal_conservation (w : List Tile) (hperm : w.Perm build_wall) :
    build_wall.length = 108 ∧
    (∀ t : Tile, 1 ≤ t.rank → t.rank ≤ 9 → build_wall.count t = 4) ∧
    (shuffle_and_deal w).1.length = 56 ∧
    (shuffle_and_deal w).2.h0.length = 13 ∧
    (shuffle_and_deal w).2.h1.length = 13 ∧
    (shuffle_and_deal w).2.h2.length = 13 ∧
    (shuffle_and_deal w).2.h3.length = 13 ∧
    (∀ t : Tile, 1 ≤ t.rank → t.rank ≤ 9 →
      ((shuffle_and_deal w).1 ++ (shuffle_and_deal w).2.h0
        ++ (shuffle_and_deal w).2.h1 ++ (shuffle_and_deal w).2.h2
        ++ (shuffle_and_deal w).2.h3).count t = 4) := by
  have hwlen : w.length = 108 := by
    rw [hperm.length_eq, build_wall_length]
  have hlen := deal_all_len 13 w ⟨[], [], [], []⟩ (by omega)
  have hcons := deal_all_conserve 13 w ⟨[], [], [], []⟩
  have htot : total_tiles (shuffle_and_deal w).1 (shuffle_and_deal w).2
      = (build_wall : Multiset Tile) := by
    rw [shuffle_and_deal, hcons, total_tiles]
    have hw : (w : Multiset Tile) = (build_wall : Multiset Tile) :=
      Multiset.coe_eq_coe.mpr hperm
    simp [hw]
  refine ⟨build_wall_length, fun t ht1 ht2 => build_wall_count t ht1 ht2,
    ?_, ?_, ?_, ?_, ?_, ?_⟩
  · rw [shuffle_and_deal] at *
    rw [hlen.1, hwlen]
  · rw [shuffle_and_deal] at *
    rw [hlen.2.1]
    rfl
  · rw [shuffle_and_deal] at *
    rw [hlen.2.2.1]
    rfl
  · rw [shuffle_and_deal] at *
    rw [hlen.2.2.2.1]
    rfl
  · rw [shuffle_and_deal] at *
    rw [hlen.2.2.2.2]
    rfl
  · intro t ht1 ht2
    have hmc : (((shuffle_and_deal w).1 ++ (shuffle_and_deal w).2.h0
        ++ (shuffle_and_deal w).2.h1 ++ (shuffle_and_deal w).2.h2
        ++ (shuffle_and_deal w).2.h3 : List Tile) : Multiset Tile)
        = total_tiles (shuffle_and_deal w).1 (shuffle_and_deal w).2 := by
      rw [total_tiles]
      simp [Multiset.coe_add]
    have := congrArg (Multiset.count t) (hmc.trans htot)
    rw [Multiset.coe_count, Multiset.coe_count] at this
    rw [this]
    exact build_wall_count t ht1 ht2

/-- Witness for C9 at the unshuffled wall itself. -/
theorem deal_conservation_witness :
    (shuffle_and_deal build_wall).1.length = 56 :=
  (deal_conservation build_wall (List.Perm.refl _)).2.2.1

end AIMJ
